import Mathlib

/-
Verification of the creek SymphoniaDecoder (src/decode_symphonia/src/lib.rs).

The decoder is embedded shallowly.  The external collaborators of the
decoder, namely the symphonia FormatReader and the codec Decoder, are
modelled by a Media record: an ordered list of packets (each packet covers
a span of frames of the file and either decodes cleanly or produces one of
the symphonia error kinds), a per-channel sample function giving the file
contents, a seek table mapping a requested timestamp to the packet index
the reader actually lands on (reader seeks may land at or before the
requested frame), and a seek failure oracle.

The decoder state SDecoder mirrors the fields of the Rust struct
SymphoniaDecoder.  The reader handle is represented by the list of packets
not yet consumed (rest) together with the frame position of its head
(pos).  The AudioBuffer decode_buffer is represented by its planes (buf, a
list of channels) and its frame count bufLen; note that bufLen is the real
length of the planes while decodeBufferLen models the separate
decode_buffer_len field of the struct, exactly as in the source.

Samples are modelled as Int (the concrete f32 sample values play no
arithmetic role in the claims; copying and zero filling are the only
operations).  Rust slice-indexing panics are modelled by a distinguished
outcome.  The decode loop is written with an explicit fuel argument so
that it is a total computable function; the fuel chosen by decodeCore
(number of unread packets plus block_frames plus one) dominates the loop
measure, since every iteration either consumes a packet or strictly
advances the write position in the block, so the fuel-exhaustion outcome
(stuck) is unreachable from decodeCore and appears in no claim.
-/

/-- Error kinds of interest from symphonia: a per-packet decode error
(Error::DecodeError), an UnexpectedEof I/O error, any other I/O error,
and any other (non decode, non I/O) fatal codec or stream error. -/
inductive SErr where
  | decodeErr
  | ioEof
  | ioOther
  | codecOther
deriving DecidableEq, Repr

/-- Behaviour of one packet of the stream: it decodes cleanly to its span
of frames, or the codec reports a non-fatal DecodeError for it, or the
codec reports a fatal (non decode) error, or the reader itself fails with
a non-EOF I/O error when the packet is requested. -/
inductive PKind where
  | good
  | badDecode
  | codecFatal
  | readerFatal
deriving DecidableEq, Repr

/-- A packet: the number of frames of the file it covers, and how decoding
it behaves. -/
structure Packet where
  len : Nat
  kind : PKind
deriving DecidableEq, Repr

/-- Model of the opened media: metadata frame count (codec params
n_frames), channel count, the packet sequence, the file sample data, and
the behaviour of FormatReader::seek (landing packet index and failure
oracle). -/
structure Media where
  numChannels : Nat
  numFrames : Nat
  packets : List Packet
  sample : Nat → Nat → Int
  seekIdx : Nat → Nat
  seekFail : Nat → Option SErr

/-- Frame position at which packet i of the media starts. -/
def packetStart (m : Media) (i : Nat) : Nat :=
  ((m.packets.take i).map Packet.len).sum

/-- The planes produced by decoding a clean packet that covers frames
[start, start + k): one list per channel. -/
def chanData (m : Media) (start k : Nat) : List (List Int) :=
  (List.range m.numChannels).map fun ch => (List.range k).map fun i => m.sample ch (start + i)

/-- State of SymphoniaDecoder (src/decode_symphonia/src/lib.rs, struct
fields), with the reader handle represented by rest/pos and the
AudioBuffer by buf/bufLen. -/
structure SDecoder where
  rest : List Packet
  pos : Nat
  buf : List (List Int)
  bufLen : Nat
  decodeBufferLen : Nat
  currDecodeBufferFrame : Nat
  numFrames : Nat
  blockFrames : Nat
  playheadFrame : Nat
  resetDecodeBuffer : Bool
  seekDelta : Nat
deriving DecidableEq, Repr

/-- Outcome of a call into the decoder: normal return, fatal error
(Result::Err), a Rust panic (out-of-bounds slice), or fuel exhaustion of
the embedding (never reached from decodeCore). -/
inductive DOut (α : Type) where
  | ok (v : α)
  | fatal (e : SErr)
  | panicked
  | stuck
deriving DecidableEq, Repr

/-- Outcome of the inner packet-refill loop of decode (lib.rs 291-344):
a successful break with the updated state, end of file, or a fatal
error. -/
inductive Rres where
  | ok (sd : SDecoder)
  | eof (sd : SDecoder)
  | fatal (e : SErr)
deriving DecidableEq, Repr

/-- The loop in SymphoniaDecoder::new that decodes packets until the
initial seek delta is absorbed (lib.rs 127-165).  Returns the frame count
of the packet it broke on, the remaining packets, the position after that
packet, and the remaining delta (which becomes curr_decode_buffer_frame).
A DecodeError packet is skipped and resets the delta to zero
(lib.rs 152-158); reader exhaustion propagates as UnexpectedEof because
new uses the question-mark operator on next_packet. -/
def newAbsorb (m : Media) : Nat → List Packet → Nat → Except SErr (Nat × List Packet × Nat × Nat)
  | _, [], _ => .error .ioEof
  | delta, p :: r, pos =>
    match p.kind with
    | .good =>
      if delta < p.len then .ok (p.len, r, pos + p.len, delta)
      else newAbsorb m (delta - p.len) r (pos + p.len)
    | .badDecode => newAbsorb m 0 r (pos + p.len)
    | .codecFatal => .error .codecOther
    | .readerFatal => .error .ioOther

/-- The initial reader seek of SymphoniaDecoder::new (lib.rs 102-113):
nothing happens for start_frame 0; otherwise the reader seeks, possibly
failing, and the seek delta is the distance from the landing position. -/
def initialSeek (m : Media) (startFrame : Nat) : Except SErr (Nat × List Packet × Nat) :=
  if startFrame ≠ 0 then
    match m.seekFail startFrame with
    | some e => .error e
    | none =>
      let i := m.seekIdx startFrame
      .ok (startFrame - packetStart m i, m.packets.drop i, packetStart m i)
  else .ok (0, m.packets, 0)

/-- SymphoniaDecoder::new (lib.rs 57-200), from the point where the track
parameters are known: perform the initial reader seek when start_frame is
nonzero, run the absorb loop, and assemble the state.  The decode buffer
is created with make_equivalent, which allocates an empty buffer (zero
frames); the decoded packet is not converted into it, so buf holds empty
planes while decode_buffer_len records the packet frame count, exactly as
in the source. -/
def SymphoniaDecoder.new (m : Media) (startFrame blockFrames : Nat) : Except SErr SDecoder :=
  match initialSeek m startFrame with
  | .error e => .error e
  | .ok (delta, rest, pos) =>
    match newAbsorb m delta rest pos with
    | .error e => .error e
    | .ok (k, rest2, pos2, rem) =>
      .ok { rest := rest2
            pos := pos2
            buf := List.replicate m.numChannels []
            bufLen := 0
            decodeBufferLen := k
            currDecodeBufferFrame := rem
            numFrames := m.numFrames
            blockFrames := blockFrames
            playheadFrame := startFrame
            resetDecodeBuffer := false
            seekDelta := 0 }

/-- SymphoniaDecoder::seek (lib.rs 202-245).  Out-of-range targets clamp
the playhead to num_frames and return Ok without touching the reader.
Otherwise the playhead is set first; if the reader seek fails the error is
returned with the playhead already updated; on success the seek delta is
the distance from the landing timestamp, the decode buffer is marked for
reset and curr_decode_buffer_frame is cleared. -/
def SymphoniaDecoder.seek (m : Media) (sd : SDecoder) (frame : Nat) : SDecoder × Except SErr Unit :=
  if sd.numFrames ≤ frame then
    ({ sd with playheadFrame := sd.numFrames }, .ok ())
  else
    let sd1 := { sd with playheadFrame := frame }
    match m.seekFail frame with
    | some e => (sd1, .error e)
    | none =>
      let i := m.seekIdx frame
      let actual := packetStart m i
      ({ sd1 with rest := m.packets.drop i
                  pos := actual
                  seekDelta := frame - actual
                  resetDecodeBuffer := true
                  currDecodeBufferFrame := 0 }, .ok ())

/-- The inner packet loop of SymphoniaDecoder::decode (lib.rs 291-344).
A clean packet breaks the loop: if the pending seek delta is at least the
packet frame count, only the delta is reduced (buffer untouched);
otherwise the delta is cleared, the packet is converted into the buffer
and curr_decode_buffer_frame is set to the old delta.  A DecodeError
packet is skipped with the delta left unchanged.  Reader exhaustion or a
mid-stream UnexpectedEof is the end-of-file outcome; other errors are
fatal. -/
def refill (m : Media) (sd : SDecoder) : List Packet → Nat → Rres
  | [], pos => .eof { sd with rest := [], pos := pos }
  | p :: r, pos =>
    match p.kind with
    | .good =>
      if sd.seekDelta < p.len then
        .ok { sd with rest := r
                      pos := pos + p.len
                      seekDelta := 0
                      decodeBufferLen := p.len
                      buf := chanData m pos p.len
                      bufLen := p.len
                      currDecodeBufferFrame := sd.seekDelta }
      else
        .ok { sd with rest := r
                      pos := pos + p.len
                      seekDelta := sd.seekDelta - p.len }
    | .badDecode => refill m sd r (pos + p.len)
    | .codecFatal => .fatal .codecOther
    | .readerFatal => .fatal .ioOther

/-- One channel copy dst[bsf .. bsf+cpy] := src[curr .. curr+cpy]
(lib.rs 275-280). -/
def writeSlice (d : List Int) (bsf : Nat) (s : List Int) (curr cpy : Nat) : List Int :=
  d.take bsf ++ (s.drop curr).take cpy ++ d.drop (bsf + cpy)

/-- The per-channel copy over the zip of destination block channels with
source buffer planes (lib.rs 275-280): channels beyond the shorter side
are left untouched, as iterator zip does. -/
def copyChans : List (List Int) → List (List Int) → Nat → Nat → Nat → List (List Int)
  | [], _, _, _, _ => []
  | ds, [], _, _, _ => ds
  | d :: ds, s :: ss, bsf, curr, cpy =>
    writeSlice d bsf s curr cpy :: copyChans ds ss bsf curr cpy

/-- Bounds check for the copy: Rust panics when a destination range
bsf+cpy exceeds the channel length or a source range curr+cpy exceeds the
actual plane length. -/
def copyOk (block buf : List (List Int)) (bsf curr cpy : Nat) : Bool :=
  (block.zip buf).all fun q => decide (bsf + cpy ≤ q.1.length ∧ curr + cpy ≤ q.2.length)

/-- The while loop of SymphoniaDecoder::decode (lib.rs 259-346), with an
explicit fuel argument (see the header comment; the fuel passed by
decodeCore is always sufficient).  Returns the final state, the written
block and the reached_end_of_file flag. -/
def decodeLoop (m : Media) : Nat → SDecoder → List (List Int) → Nat → DOut (SDecoder × List (List Int) × Bool)
  | 0, _, _, _ => .stuck
  | fuel + 1, sd, block, bsf =>
    if bsf < sd.blockFrames then
      if sd.resetDecodeBuffer then
        match refill m { sd with resetDecodeBuffer := false } sd.rest sd.pos with
        | .eof sd2 => .ok (sd2, block, true)
        | .fatal e => .fatal e
        | .ok sd2 => decodeLoop m fuel sd2 block bsf
      else
        let cpy := min (sd.blockFrames - bsf) (sd.decodeBufferLen - sd.currDecodeBufferFrame)
        if cpy = 0 then
          match refill m sd sd.rest sd.pos with
          | .eof sd2 => .ok (sd2, block, true)
          | .fatal e => .fatal e
          | .ok sd2 => decodeLoop m fuel sd2 block bsf
        else
          if copyOk block sd.buf bsf sd.currDecodeBufferFrame cpy then
            let block2 := copyChans block sd.buf bsf sd.currDecodeBufferFrame cpy
            let curr2 := sd.currDecodeBufferFrame + cpy
            decodeLoop m fuel
              { sd with currDecodeBufferFrame := curr2
                        resetDecodeBuffer := decide (sd.decodeBufferLen ≤ curr2) }
              block2 (bsf + cpy)
          else .panicked
    else .ok (sd, block, false)

/-- The decode while loop started at block_start_frame = 0 with enough
fuel for its measure (unread packets plus block frames). -/
def decodeCore (m : Media) (sd : SDecoder) (block : List (List Int)) : DOut (SDecoder × List (List Int) × Bool) :=
  decodeLoop m (sd.rest.length + sd.blockFrames + 1) sd block 0

/-- SymphoniaDecoder::decode (lib.rs 247-355): at or past the end of the
file every channel is filled with zeros and the state is unchanged;
otherwise the fill loop runs and the playhead is set to num_frames when
the loop hit end of file, or advanced by block_frames otherwise. -/
def SymphoniaDecoder.decode (m : Media) (sd : SDecoder) (block : List (List Int)) : DOut (SDecoder × List (List Int)) :=
  if sd.numFrames ≤ sd.playheadFrame then
    .ok (sd, block.map fun ch => List.replicate ch.length 0)
  else
    match decodeCore m sd block with
    | .ok (sd2, block2, eofFlag) =>
      .ok ({ sd2 with playheadFrame :=
               if eofFlag then sd2.numFrames else sd2.playheadFrame + sd2.blockFrames }, block2)
    | .fatal e => .fatal e
    | .panicked => .panicked
    | .stuck => .stuck

/-- Placeholder state used by the total extraction helpers below. -/
def dummySD : SDecoder :=
  { rest := []
    pos := 0
    buf := []
    bufLen := 0
    decodeBufferLen := 0
    currDecodeBufferFrame := 0
    numFrames := 0
    blockFrames := 0
    playheadFrame := 0
    resetDecodeBuffer := false
    seekDelta := 0 }

/-- Extract the state from a successful open. -/
def getOk : Except SErr SDecoder → SDecoder
  | .ok s => s
  | .error _ => dummySD

/-- Whether an open succeeded. -/
def isOkN : Except SErr SDecoder → Bool
  | .ok _ => true
  | .error _ => false

/-- Whether a seek succeeded. -/
def isOkE : Except SErr Unit → Bool
  | .ok _ => true
  | .error _ => false

/-- Extract the state from a successful decode. -/
def stOf : DOut (SDecoder × List (List Int)) → SDecoder
  | .ok (s, _) => s
  | _ => dummySD

/-- Extract the output block from a successful decode. -/
def outOf : DOut (SDecoder × List (List Int)) → List (List Int)
  | .ok (_, b) => b
  | _ => []

/-- Whether a decode returned Ok. -/
def isOkD : DOut (SDecoder × List (List Int)) → Bool
  | .ok _ => true
  | _ => false

/-- Extract the state from a successful decode loop run. -/
def stOf3 : DOut (SDecoder × List (List Int) × Bool) → SDecoder
  | .ok (s, _, _) => s
  | _ => dummySD

/-- Extract the block from a successful decode loop run. -/
def outOf3 : DOut (SDecoder × List (List Int) × Bool) → List (List Int)
  | .ok (_, b, _) => b
  | _ => []

/-- Extract the end-of-file flag from a successful decode loop run. -/
def eofOf3 : DOut (SDecoder × List (List Int) × Bool) → Bool
  | .ok (_, _, e) => e
  | _ => false

/-- Concrete media used by the counterexample runs: one channel, eight
frames in four clean packets of two frames, sample value 10 + frame.  The
reader seek table is exact (packet containing the frame) except for a
request of frame 5, where it lands coarsely at packet 0 (frame 0), as a
codec with coarse seek points may. -/
def m8 : Media :=
  { numChannels := 1
    numFrames := 8
    packets := [⟨2, .good⟩, ⟨2, .good⟩, ⟨2, .good⟩, ⟨2, .good⟩]
    sample := fun _ f => 10 + (f : Int)
    seekIdx := fun f => if f = 5 then 0 else f / 2
    seekFail := fun _ => none }

/-- State after opening m8 at frame 0 with block_frames 4. -/
def s0 : SDecoder := getOk (SymphoniaDecoder.new m8 0 4)

/-- State after seeking to frame 1 (single-packet delta). -/
def s1 : SDecoder := (SymphoniaDecoder.seek m8 s0 1).1

/-- First decode after the seek to frame 1. -/
def r1 : DOut (SDecoder × List (List Int)) := SymphoniaDecoder.decode m8 s1 [[9, 9, 9, 9]]

/-- State after seeking to frame 5 (the reader lands at frame 0, so the
seek delta spans multiple packets). -/
def s2 : SDecoder := (SymphoniaDecoder.seek m8 (stOf r1) 5).1

/-- Decode after the first seek to frame 5. -/
def r2 : DOut (SDecoder × List (List Int)) := SymphoniaDecoder.decode m8 s2 [[9, 9, 9, 9]]

/-- State after repeating the seek to frame 5. -/
def s3 : SDecoder := (SymphoniaDecoder.seek m8 (stOf r2) 5).1

/-- Decode after the repeated seek to frame 5. -/
def r3 : DOut (SDecoder × List (List Int)) := SymphoniaDecoder.decode m8 s3 [[9, 9, 9, 9]]

/-- Media mirroring the decode_first_frame test situation in miniature:
one channel, clean packets, open at frame 0, then decode immediately. -/
def mW : Media :=
  { numChannels := 1
    numFrames := 10
    packets := [⟨4, .good⟩, ⟨4, .good⟩, ⟨2, .good⟩]
    sample := fun _ f => 10 + (f : Int)
    seekIdx := fun f => f / 4
    seekFail := fun _ => none }

/-- State right after opening mW at frame 0 with block_frames 3. -/
def sdW : SDecoder := getOk (SymphoniaDecoder.new mW 0 3)

/-- State after opening m8 at 0 with block_frames 6 and seeking to
frame 4: the decode of a 6-frame block then runs off the end of the
8-frame file. -/
def sC2 : SDecoder := (SymphoniaDecoder.seek m8 (getOk (SymphoniaDecoder.new m8 0 6)) 4).1

/-- Decode of sC2 into a block previously holding nines. -/
def rC2a : DOut (SDecoder × List (List Int)) := SymphoniaDecoder.decode m8 sC2 [[9, 9, 9, 9, 9, 9]]

/-- The same decode into a block previously holding threes. -/
def rC2b : DOut (SDecoder × List (List Int)) := SymphoniaDecoder.decode m8 sC2 [[3, 3, 3, 3, 3, 3]]

/-- Media whose second packet makes the codec fail with a fatal (non
decode) error. -/
def mE : Media :=
  { numChannels := 1
    numFrames := 8
    packets := [⟨2, .good⟩, ⟨2, .codecFatal⟩]
    sample := fun _ f => 10 + (f : Int)
    seekIdx := fun f => f / 2
    seekFail := fun _ => none }

/-- State after opening mE and seeking to frame 0 (so the empty initial
buffer is discarded before the first copy). -/
def sdE : SDecoder := (SymphoniaDecoder.seek mE (getOk (SymphoniaDecoder.new mE 0 4)) 0).1

/-- Media whose first packet covers frames [0,4) but raises a DecodeError;
every reader seek lands at packet 0. -/
def mC10 : Media :=
  { numChannels := 1
    numFrames := 12
    packets := [⟨4, .badDecode⟩, ⟨4, .good⟩, ⟨4, .good⟩]
    sample := fun _ f => 10 + (f : Int)
    seekIdx := fun _ => 0
    seekFail := fun _ => none }

/-- State after opening mC10 at start_frame 6. -/
def c10st : SDecoder := getOk (SymphoniaDecoder.new mC10 6 2)

/-- A state with a pending seek delta of five frames, used to instantiate
the delta state machine. -/
def wX : SDecoder := { dummySD with seekDelta := 5 }

theorem refill_fatal_kind (m : Media) (sd : SDecoder) :
    ∀ (l : List Packet) (pos : Nat) (e : SErr), refill m sd l pos = .fatal e →
      e = .codecOther ∨ e = .ioOther := by
  intro l
  induction l with
  | nil => intro pos e h; simp [refill] at h
  | cons p r ih =>
    intro pos e h
    cases hk : p.kind <;> simp [refill, hk] at h
    · split at h <;> simp_all
    · exact ih _ _ h
    · exact Or.inl h.symm
    · exact Or.inr h.symm

theorem refill_ok_fields (m : Media) (sd : SDecoder) :
    ∀ (l : List Packet) (pos : Nat) (sd2 : SDecoder), refill m sd l pos = .ok sd2 →
      sd2.numFrames = sd.numFrames ∧ sd2.blockFrames = sd.blockFrames ∧
      sd2.playheadFrame = sd.playheadFrame ∧
      (sd2.buf = sd.buf ∨ sd2.buf.length = m.numChannels) := by
  intro l
  induction l with
  | nil => intro pos sd2 h; simp [refill] at h
  | cons p r ih =>
    intro pos sd2 h
    cases hk : p.kind <;> simp [refill, hk] at h
    · split at h <;> simp at h <;> subst h
      · refine ⟨rfl, rfl, rfl, Or.inr ?_⟩
        simp [chanData]
      · exact ⟨rfl, rfl, rfl, Or.inl rfl⟩
    · exact ih _ _ h

theorem refill_eof_fields (m : Media) (sd : SDecoder) :
    ∀ (l : List Packet) (pos : Nat) (sd2 : SDecoder), refill m sd l pos = .eof sd2 →
      sd2.numFrames = sd.numFrames ∧ sd2.blockFrames = sd.blockFrames ∧
      sd2.playheadFrame = sd.playheadFrame := by
  intro l
  induction l with
  | nil =>
    intro pos sd2 h
    simp [refill] at h
    subst h; exact ⟨rfl, rfl, rfl⟩
  | cons p r ih =>
    intro pos sd2 h
    cases hk : p.kind <;> simp [refill, hk] at h
    · split at h <;> simp at h
    · exact ih _ _ h

theorem decodeLoop_fatal_kind (m : Media) :
    ∀ (fuel : Nat) (sd : SDecoder) (b : List (List Int)) (bsf : Nat) (e : SErr),
      decodeLoop m fuel sd b bsf = .fatal e → e = .codecOther ∨ e = .ioOther := by
  intro fuel
  induction fuel with
  | zero => intro sd b bsf e h; simp [decodeLoop] at h
  | succ n ih =>
    intro sd b bsf e h
    simp only [decodeLoop] at h
    split at h
    · split at h
      · split at h
        · simp at h
        · rename_i e2 heq
          cases h
          exact refill_fatal_kind m _ _ _ _ heq
        · exact ih _ _ _ _ h
      · split at h
        · split at h
          · simp at h
          · rename_i e2 heq
            cases h
            exact refill_fatal_kind m _ _ _ _ heq
          · exact ih _ _ _ _ h
        · split at h
          · exact ih _ _ _ _ h
          · simp at h
    · simp at h

theorem decodeLoop_ok_fields (m : Media) :
    ∀ (fuel : Nat) (sd : SDecoder) (b : List (List Int)) (bsf : Nat)
      (sd2 : SDecoder) (o : List (List Int)) (eo : Bool),
      decodeLoop m fuel sd b bsf = .ok (sd2, o, eo) →
      sd2.numFrames = sd.numFrames ∧ sd2.blockFrames = sd.blockFrames ∧
      sd2.playheadFrame = sd.playheadFrame := by
  intro fuel
  induction fuel with
  | zero => intro sd b bsf sd2 o eo h; simp [decodeLoop] at h
  | succ n ih =>
    intro sd b bsf sd2 o eo h
    simp only [decodeLoop] at h
    split at h
    · split at h
      · split at h
        · rename_i sd3 heq
          simp only [DOut.ok.injEq, Prod.mk.injEq] at h
          obtain ⟨h1, _, _⟩ := h
          subst h1
          have hf := refill_eof_fields m _ _ _ _ heq
          exact hf
        · simp at h
        · rename_i sd3 heq
          have h2 := ih _ _ _ sd2 o eo h
          have h3 := refill_ok_fields m _ _ _ _ heq
          exact ⟨h2.1.trans h3.1, h2.2.1.trans h3.2.1, h2.2.2.trans h3.2.2.1⟩
      · split at h
        · split at h
          · rename_i sd3 heq
            simp only [DOut.ok.injEq, Prod.mk.injEq] at h
            obtain ⟨h1, _, _⟩ := h
            subst h1
            exact refill_eof_fields m _ _ _ _ heq
          · simp at h
          · rename_i sd3 heq
            have h2 := ih _ _ _ sd2 o eo h
            have h3 := refill_ok_fields m _ _ _ _ heq
            exact ⟨h2.1.trans h3.1, h2.2.1.trans h3.2.1, h2.2.2.trans h3.2.2.1⟩
        · split at h
          · have h2 := ih _ _ _ sd2 o eo h
            exact h2
          · simp at h
    · simp only [DOut.ok.injEq, Prod.mk.injEq] at h
      obtain ⟨h1, _, _⟩ := h
      subst h1
      exact ⟨rfl, rfl, rfl⟩

theorem newAbsorb_error_kind (m : Media) :
    ∀ (l : List Packet) (d pos : Nat) (e : SErr),
      newAbsorb m d l pos = .error e → e ≠ .decodeErr := by
  intro l
  induction l with
  | nil =>
    intro d pos e h
    simp [newAbsorb] at h
    subst h
    decide
  | cons p r ih =>
    intro d pos e h
    cases hk : p.kind <;> simp [newAbsorb, hk] at h
    · split at h
      · simp at h
      · exact ih _ _ _ h
    · exact ih _ _ _ h
    · subst h; decide
    · subst h; decide

theorem initialSeek_error_some (m : Media) (startFrame : Nat) (e : SErr)
    (h : initialSeek m startFrame = .error e) : m.seekFail startFrame = some e := by
  unfold initialSeek at h
  split at h
  · cases hsf : m.seekFail startFrame with
    | none => rw [hsf] at h; simp at h
    | some e2 =>
      rw [hsf] at h
      simp only [Except.error.injEq] at h
      subst h
      rfl
  · simp at h

/-- C4 (amended): every call to decode that starts with the playhead
strictly below num_frames and returns Ok either advances the playhead by
exactly block_frames, or reached end of file during the call, in which
case the playhead is set to num_frames instead. -/
theorem playhead_advance_amended (m : Media) (sd : SDecoder) (block : List (List Int))
    (sd2 : SDecoder) (out : List (List Int))
    (hlt : sd.playheadFrame < sd.numFrames)
    (h : SymphoniaDecoder.decode m sd block = .ok (sd2, out)) :
    sd2.playheadFrame = sd.playheadFrame + sd.blockFrames ∨ sd2.playheadFrame = sd.numFrames := by
  unfold SymphoniaDecoder.decode at h
  rw [if_neg (by omega)] at h
  cases hc : decodeCore m sd block with
  | ok v =>
    obtain ⟨sd3, b2, eo⟩ := v
    rw [hc] at h
    simp only [DOut.ok.injEq, Prod.mk.injEq] at h
    obtain ⟨h1, h2⟩ := h
    have hcc : decodeLoop m (sd.rest.length + sd.blockFrames + 1) sd block 0 = .ok (sd3, b2, eo) := hc
    have hf := decodeLoop_ok_fields m _ _ _ _ _ _ _ hcc
    subst h1
    cases eo with
    | true => right; simp [hf.1]
    | false => left; simp [hf.2.1, hf.2.2]
  | fatal e => rw [hc] at h; simp at h
  | panicked => rw [hc] at h; simp at h
  | stuck => rw [hc] at h; simp at h

/-- C5: the seek-delta absorption state machine.  In the refill loop of
decode, a packet decoding to k frames with pending delta n either (k ≤ n)
reduces the delta to n - k leaving the exposed buffer untouched, or
(n < k) clears the delta, installs the decoded frames as the buffer and
exposes them starting at offset n (curr_decode_buffer_frame := n).  In
the initial loop of new, the same arithmetic: k ≤ n continues with delta
n - k, and n < k breaks exposing the packet from offset n. -/
theorem seek_delta_state_machine (m : Media) (sd : SDecoder) (k : Nat) (r : List Packet) (pos : Nat) :
    (k ≤ sd.seekDelta →
      refill m sd (⟨k, .good⟩ :: r) pos =
        .ok { sd with rest := r, pos := pos + k, seekDelta := sd.seekDelta - k }) ∧
    (sd.seekDelta < k →
      refill m sd (⟨k, .good⟩ :: r) pos =
        .ok { sd with
              rest := r
              pos := pos + k
              seekDelta := 0
              decodeBufferLen := k
              buf := chanData m pos k
              bufLen := k
              currDecodeBufferFrame := sd.seekDelta }) ∧
    (∀ d, k ≤ d → newAbsorb m d (⟨k, .good⟩ :: r) pos = newAbsorb m (d - k) r (pos + k)) ∧
    (∀ d, d < k → newAbsorb m d (⟨k, .good⟩ :: r) pos = .ok (k, r, pos + k, d)) := by
  refine ⟨?_, ?_, ?_, ?_⟩
  · intro h; simp [refill, Nat.not_lt.mpr h]
  · intro h; simp [refill, h]
  · intro d h; simp [newAbsorb, Nat.not_lt.mpr h]
  · intro d h; simp [newAbsorb, h]

/-- C6: a per-packet DecodeError is never returned to the caller.  decode
returns Err only with a non-decode, non-UnexpectedEof error (reader
exhaustion is handled as end of file); new never returns DecodeError
(assuming reader seek failures are not decode errors, which is what the
reader can produce); and in both loops a DecodeError packet is skipped
and decoding retries with the next packet. -/
theorem decode_error_nonfatal (m : Media) (sd : SDecoder) (b : List (List Int))
    (startFrame bf k pos d : Nat) (r : List Packet)
    (hseek : ∀ f e0, m.seekFail f = some e0 → e0 ≠ SErr.decodeErr) :
    (∀ e, SymphoniaDecoder.decode m sd b = .fatal e → e = .codecOther ∨ e = .ioOther) ∧
    (∀ e, SymphoniaDecoder.new m startFrame bf = .error e → e ≠ .decodeErr) ∧
    (refill m sd (⟨k, .badDecode⟩ :: r) pos = refill m sd r (pos + k)) ∧
    (newAbsorb m d (⟨k, .badDecode⟩ :: r) pos = newAbsorb m 0 r (pos + k)) := by
  refine ⟨?_, ?_, ?_, ?_⟩
  · intro e h
    unfold SymphoniaDecoder.decode at h
    split at h
    · simp at h
    · cases hc : decodeCore m sd b with
      | ok v => rw [hc] at h; simp at h
      | fatal e2 =>
        rw [hc] at h
        simp only [DOut.fatal.injEq] at h
        subst h
        exact decodeLoop_fatal_kind m _ _ _ _ _ hc
      | panicked => rw [hc] at h; simp at h
      | stuck => rw [hc] at h; simp at h
  · intro e h
    unfold SymphoniaDecoder.new at h
    cases hs : initialSeek m startFrame with
    | error e2 =>
      rw [hs] at h
      simp only [Except.error.injEq] at h
      subst h
      exact hseek _ _ (initialSeek_error_some m startFrame _ hs)
    | ok v =>
      obtain ⟨delta, rest, pos2⟩ := v
      rw [hs] at h
      dsimp only at h
      cases ha : newAbsorb m delta rest pos2 with
      | error e2 =>
        rw [ha] at h
        simp only [Except.error.injEq] at h
        subst h
        exact newAbsorb_error_kind m _ _ _ _ ha
      | ok v2 =>
        obtain ⟨k2, r2, p2, rem⟩ := v2
        rw [ha] at h
        simp at h
  · simp [refill]
  · simp [newAbsorb]

/-- C9: seek at or past num_frames returns Ok without consulting the
reader (the result does not depend on the seek oracle), clamps the
playhead to num_frames, and a subsequent decode returns Ok with every
channel zero-filled and the state unchanged; seek returns Err exactly
when the frame is in range and the underlying reader seek fails, with
that same error. -/
theorem seek_out_of_range_clamps (m : Media) (sd : SDecoder) (f : Nat) (b : List (List Int)) :
    (sd.numFrames ≤ f →
      SymphoniaDecoder.seek m sd f = ({ sd with playheadFrame := sd.numFrames }, Except.ok ())) ∧
    (∀ e, (SymphoniaDecoder.seek m sd f).2 = .error e → f < sd.numFrames ∧ m.seekFail f = some e) ∧
    (sd.numFrames ≤ f →
      SymphoniaDecoder.decode m (SymphoniaDecoder.seek m sd f).1 b =
        .ok ((SymphoniaDecoder.seek m sd f).1, b.map fun c => List.replicate c.length 0)) := by
  refine ⟨?_, ?_, ?_⟩
  · intro h; simp [SymphoniaDecoder.seek, h]
  · intro e h
    unfold SymphoniaDecoder.seek at h
    split at h
    · simp at h
    · rename_i hlt
      rw [Nat.not_le] at hlt
      cases hsf : m.seekFail f with
      | none => rw [hsf] at h; simp at h
      | some e2 =>
        rw [hsf] at h
        simp only [Except.error.injEq] at h
        subst h
        exact ⟨hlt, rfl⟩
  · intro h
    have h1 : (SymphoniaDecoder.seek m sd f).1 = { sd with playheadFrame := sd.numFrames } := by
      simp [SymphoniaDecoder.seek, h]
    rw [h1]
    unfold SymphoniaDecoder.decode
    rw [if_pos (by simp)]

theorem writeSlice_length (d s : List Int) (bsf curr cpy : Nat)
    (h1 : bsf + cpy ≤ d.length) (h2 : curr + cpy ≤ s.length) :
    (writeSlice d bsf s curr cpy).length = d.length := by
  simp only [writeSlice, List.length_append, List.length_take, List.length_drop]
  omega

theorem writeSlice_take_eq (d s : List Int) (bsf curr cpy : Nat)
    (h1 : bsf + cpy ≤ d.length) (h2 : curr + cpy ≤ s.length) :
    (writeSlice d bsf s curr cpy).take (bsf + cpy) = d.take bsf ++ (s.drop curr).take cpy := by
  unfold writeSlice
  have hlen : (d.take bsf ++ (s.drop curr).take cpy).length = bsf + cpy := by
    simp only [List.length_append, List.length_take, List.length_drop]
    omega
  rw [List.append_assoc, ← hlen, ← List.append_assoc, List.take_left]

theorem copyOk_bounds (block buf : List (List Int)) (bsf curr cpy : Nat)
    (h : copyOk block buf bsf curr cpy = true) :
    ∀ q ∈ block.zip buf, bsf + cpy ≤ q.1.length ∧ curr + cpy ≤ q.2.length := by
  intro q hq
  have := List.all_eq_true.mp h q hq
  exact of_decide_eq_true this

theorem copyOk_congr (bsf curr cpy : Nat) :
    ∀ (b1 b2 buf : List (List Int)),
      List.Forall₂ (fun c1 c2 => c1.length = c2.length) b1 b2 →
      copyOk b1 buf bsf curr cpy = copyOk b2 buf bsf curr cpy := by
  intro b1 b2 buf hf
  induction hf generalizing buf with
  | nil => rfl
  | cons hd tl ih =>
    cases buf with
    | nil => rfl
    | cons s ss =>
      rename_i c1 c2 r1 r2
      simp only [copyOk, List.zip_cons_cons, List.all_cons] at *
      rw [hd]
      congr 1
      exact ih ss

theorem copyChans_length : ∀ (b buf : List (List Int)) (bsf curr cpy : Nat),
    (copyChans b buf bsf curr cpy).length = b.length := by
  intro b
  induction b with
  | nil => intro buf bsf curr cpy; cases buf <;> rfl
  | cons d ds ih =>
    intro buf bsf curr cpy
    cases buf with
    | nil => rfl
    | cons s ss => simp [copyChans, ih ss]

theorem copyChans_chansOk (bsf curr cpy bf : Nat) :
    ∀ (b buf : List (List Int)),
      copyOk b buf bsf curr cpy = true →
      b.length ≤ buf.length →
      (∀ c ∈ b, c.length = bf) →
      ∀ c ∈ copyChans b buf bsf curr cpy, c.length = bf := by
  intro b
  induction b with
  | nil => intro buf _ _ _ c hc; cases buf <;> simp [copyChans] at hc
  | cons d ds ih =>
    intro buf hok hlen hall c hc
    cases buf with
    | nil => simp at hlen
    | cons s ss =>
      simp only [copyChans, List.mem_cons] at hc
      rcases hc with hc | hc
      · subst hc
        have hb := copyOk_bounds _ _ _ _ _ hok (d, s) (by simp [List.zip_cons_cons])
        rw [writeSlice_length d s bsf curr cpy hb.1 hb.2]
        exact hall d (by simp)
      · have hok2 : copyOk ds ss bsf curr cpy = true := by
          simp only [copyOk, List.zip_cons_cons, List.all_cons, Bool.and_eq_true] at hok
          exact hok.2
        exact ih ss hok2 (by simpa using hlen) (fun c2 hc2 => hall c2 (by simp [hc2])) c hc

theorem copyChans_forall2 (bsf curr cpy : Nat) :
    ∀ (b1 b2 buf : List (List Int)),
      List.Forall₂ (fun c1 c2 => c1.length = c2.length ∧ c1.take bsf = c2.take bsf) b1 b2 →
      copyOk b1 buf bsf curr cpy = true →
      b1.length ≤ buf.length →
      List.Forall₂ (fun c1 c2 => c1.length = c2.length ∧ c1.take (bsf + cpy) = c2.take (bsf + cpy))
        (copyChans b1 buf bsf curr cpy) (copyChans b2 buf bsf curr cpy) := by
  intro b1 b2 buf hf
  induction hf generalizing buf with
  | nil =>
    intro _ _
    cases buf <;> exact List.Forall₂.nil
  | cons hd tl ih =>
    rename_i c1 c2 r1 r2
    intro hok hlen
    cases buf with
    | nil => simp at hlen
    | cons s ss =>
      have hb := copyOk_bounds _ _ _ _ _ hok (c1, s) (by simp [List.zip_cons_cons])
      have hok2 : copyOk r1 ss bsf curr cpy = true := by
        simp only [copyOk, List.zip_cons_cons, List.all_cons, Bool.and_eq_true] at hok
        exact hok.2
      simp only [copyChans]
      refine List.Forall₂.cons ⟨?_, ?_⟩ (ih ss hok2 (by simpa using hlen))
      · rw [writeSlice_length c1 s bsf curr cpy hb.1 hb.2,
            writeSlice_length c2 s bsf curr cpy (hd.1 ▸ hb.1) hb.2]
        exact hd.1
      · rw [writeSlice_take_eq c1 s bsf curr cpy hb.1 hb.2,
            writeSlice_take_eq c2 s bsf curr cpy (hd.1 ▸ hb.1) hb.2, hd.2]

theorem forall2_take_eq_lists (n : Nat) :
    ∀ (b1 b2 : List (List Int)),
      List.Forall₂ (fun c1 c2 => c1.length = c2.length ∧ c1.take n = c2.take n) b1 b2 →
      (∀ c ∈ b1, c.length ≤ n) → b1 = b2 := by
  intro b1 b2 hf
  induction hf with
  | nil => intro _; rfl
  | cons hd tl ih =>
    rename_i c1 c2 r1 r2
    intro hlen
    have h1 : c1.length ≤ n := hlen c1 (by simp)
    have h2 : c2.length ≤ n := hd.1 ▸ h1
    have : c1 = c2 := by
      rw [← List.take_of_length_le h1, ← List.take_of_length_le h2]
      exact hd.2
    rw [this, ih (fun c hc => hlen c (by simp [hc]))]

theorem forall2_zero_take (bf : Nat) :
    ∀ (b1 b2 : List (List Int)),
      b1.length = b2.length →
      (∀ c ∈ b1, c.length = bf) → (∀ c ∈ b2, c.length = bf) →
      List.Forall₂ (fun c1 c2 => c1.length = c2.length ∧ c1.take 0 = c2.take 0) b1 b2 := by
  intro b1
  induction b1 with
  | nil =>
    intro b2 hlen _ _
    cases b2 with
    | nil => exact List.Forall₂.nil
    | cons _ _ => simp at hlen
  | cons c1 r1 ih =>
    intro b2 hlen h1 h2
    cases b2 with
    | nil => simp at hlen
    | cons c2 r2 =>
      refine List.Forall₂.cons ⟨?_, by simp⟩ ?_
      · rw [h1 c1 (by simp), h2 c2 (by simp)]
      · exact ih r2 (by simpa using hlen) (fun c hc => h1 c (by simp [hc]))
          (fun c hc => h2 c (by simp [hc]))

theorem decodeLoop_lockstep (m : Media) :
    ∀ (fuel : Nat) (sd : SDecoder) (b1 b2 : List (List Int)) (bsf : Nat)
      (s1 s2 : SDecoder) (o1 o2 : List (List Int)) (e1 e2 : Bool),
      b1.length = m.numChannels → b2.length = m.numChannels →
      sd.buf.length = m.numChannels →
      (∀ c ∈ b1, c.length = sd.blockFrames) → (∀ c ∈ b2, c.length = sd.blockFrames) →
      List.Forall₂ (fun c1 c2 => c1.length = c2.length ∧ c1.take bsf = c2.take bsf) b1 b2 →
      decodeLoop m fuel sd b1 bsf = .ok (s1, o1, e1) →
      decodeLoop m fuel sd b2 bsf = .ok (s2, o2, e2) →
      s1 = s2 ∧ e1 = e2 ∧ (e1 = false → o1 = o2) := by
  intro fuel
  induction fuel with
  | zero =>
    intro sd b1 b2 bsf s1 s2 o1 o2 e1 e2 _ _ _ _ _ _ h1 _
    simp [decodeLoop] at h1
  | succ n ih =>
    intro sd b1 b2 bsf s1 s2 o1 o2 e1 e2 hc1 hc2 hbuf hl1 hl2 hf h1 h2
    simp only [decodeLoop] at h1 h2
    by_cases hb : bsf < sd.blockFrames
    · rw [if_pos hb] at h1 h2
      by_cases hr : sd.resetDecodeBuffer = true
      · rw [if_pos hr] at h1 h2
        cases hrf : refill m { sd with resetDecodeBuffer := false } sd.rest sd.pos with
        | eof sd3 =>
          rw [hrf] at h1 h2
          simp only [DOut.ok.injEq, Prod.mk.injEq] at h1 h2
          obtain ⟨ha1, hb1, he1⟩ := h1
          obtain ⟨ha2, hb2, he2⟩ := h2
          subst ha1; subst ha2
          exact ⟨rfl, he1.symm.trans he2, fun hff => by rw [← he1] at hff; simp at hff⟩
        | fatal e => rw [hrf] at h1; simp at h1
        | ok sd3 =>
          rw [hrf] at h1 h2
          have hfs := refill_ok_fields m _ _ _ _ hrf
          have hbuf3 : sd3.buf.length = m.numChannels := by
            rcases hfs.2.2.2 with hsame | hlen
            · rw [hsame]; exact hbuf
            · exact hlen
          have hbk : sd3.blockFrames = sd.blockFrames := hfs.2.1
          exact ih sd3 b1 b2 bsf s1 s2 o1 o2 e1 e2 hc1 hc2 hbuf3
            (fun c hc => (hl1 c hc).symm ▸ hbk.symm ▸ rfl)
            (fun c hc => (hl2 c hc).symm ▸ hbk.symm ▸ rfl) hf h1 h2
      · rw [if_neg hr] at h1 h2
        by_cases hz : (sd.blockFrames - bsf) ⊓ (sd.decodeBufferLen - sd.currDecodeBufferFrame) = 0
        · rw [if_pos hz] at h1 h2
          cases hrf : refill m sd sd.rest sd.pos with
          | eof sd3 =>
            rw [hrf] at h1 h2
            simp only [DOut.ok.injEq, Prod.mk.injEq] at h1 h2
            obtain ⟨ha1, hb1, he1⟩ := h1
            obtain ⟨ha2, hb2, he2⟩ := h2
            subst ha1; subst ha2
            exact ⟨rfl, he1.symm.trans he2, fun hff => by rw [← he1] at hff; simp at hff⟩
          | fatal e => rw [hrf] at h1; simp at h1
          | ok sd3 =>
            rw [hrf] at h1 h2
            have hfs := refill_ok_fields m _ _ _ _ hrf
            have hbuf3 : sd3.buf.length = m.numChannels := by
              rcases hfs.2.2.2 with hsame | hlen
              · rw [hsame]; exact hbuf
              · exact hlen
            have hbk : sd3.blockFrames = sd.blockFrames := hfs.2.1
            exact ih sd3 b1 b2 bsf s1 s2 o1 o2 e1 e2 hc1 hc2 hbuf3
              (fun c hc => (hl1 c hc).symm ▸ hbk.symm ▸ rfl)
              (fun c hc => (hl2 c hc).symm ▸ hbk.symm ▸ rfl) hf h1 h2
        · rw [if_neg hz] at h1 h2
          have hflen : List.Forall₂ (fun c1 c2 : List Int => c1.length = c2.length) b1 b2 :=
            List.Forall₂.imp (fun a b h => h.1) hf
          have hcoeq := copyOk_congr bsf sd.currDecodeBufferFrame
            ((sd.blockFrames - bsf) ⊓ (sd.decodeBufferLen - sd.currDecodeBufferFrame))
            b1 b2 sd.buf hflen
          by_cases hco : copyOk b1 sd.buf bsf sd.currDecodeBufferFrame
              ((sd.blockFrames - bsf) ⊓ (sd.decodeBufferLen - sd.currDecodeBufferFrame)) = true
          · rw [if_pos hco] at h1
            rw [if_pos (hcoeq ▸ hco)] at h2
            have hblen : b1.length ≤ sd.buf.length := by rw [hc1, hbuf]
            have hc1n : (copyChans b1 sd.buf bsf sd.currDecodeBufferFrame
                ((sd.blockFrames - bsf) ⊓ (sd.decodeBufferLen - sd.currDecodeBufferFrame))).length
                = m.numChannels := by rw [copyChans_length]; exact hc1
            have hc2n : (copyChans b2 sd.buf bsf sd.currDecodeBufferFrame
                ((sd.blockFrames - bsf) ⊓ (sd.decodeBufferLen - sd.currDecodeBufferFrame))).length
                = m.numChannels := by rw [copyChans_length]; exact hc2
            have hblen2 : b2.length ≤ sd.buf.length := by rw [hc2, hbuf]
            have hl1n := copyChans_chansOk bsf sd.currDecodeBufferFrame
              ((sd.blockFrames - bsf) ⊓ (sd.decodeBufferLen - sd.currDecodeBufferFrame))
              sd.blockFrames b1 sd.buf hco hblen hl1
            have hl2n := copyChans_chansOk bsf sd.currDecodeBufferFrame
              ((sd.blockFrames - bsf) ⊓ (sd.decodeBufferLen - sd.currDecodeBufferFrame))
              sd.blockFrames b2 sd.buf (hcoeq ▸ hco) hblen2 hl2
            have hfn := copyChans_forall2 bsf sd.currDecodeBufferFrame
              ((sd.blockFrames - bsf) ⊓ (sd.decodeBufferLen - sd.currDecodeBufferFrame))
              b1 b2 sd.buf hf hco hblen
            exact ih _ _ _ _ s1 s2 o1 o2 e1 e2 hc1n hc2n (by exact hbuf)
              (by exact hl1n) (by exact hl2n) hfn h1 h2
          · rw [if_neg hco] at h1
            simp at h1
    · rw [if_neg hb] at h1 h2
      simp only [DOut.ok.injEq, Prod.mk.injEq] at h1 h2
      obtain ⟨ha1, hb1, he1⟩ := h1
      obtain ⟨ha2, hb2, he2⟩ := h2
      subst ha1; subst ha2
      refine ⟨rfl, he1.symm.trans he2, fun _ => ?_⟩
      rw [← hb1, ← hb2]
      exact forall2_take_eq_lists bsf b1 b2 hf
        (fun c hc => le_trans (le_of_eq (hl1 c hc)) (Nat.not_lt.mp hb))

/-- C2 (amended): a decode call that returns Ok and does not reach end of
file mid-block writes every one of the block_frames entries of every
channel: the output block and final state are independent of the block
prior contents.  When end of file interrupts the fill, the entries not
yet written retain the block prior contents (they are not zero-filled);
this is the part the counterexample exhibits.  Stated on decodeCore, the
decode fill loop, whose Bool component is the reached_end_of_file flag. -/
theorem decode_block_fill_amended (m : Media) (sd : SDecoder) (b1 b2 : List (List Int))
    (s1 s2 : SDecoder) (o1 o2 : List (List Int)) (e1 e2 : Bool)
    (hc1 : b1.length = m.numChannels) (hc2 : b2.length = m.numChannels)
    (hbuf : sd.buf.length = m.numChannels)
    (hl1 : ∀ c ∈ b1, c.length = sd.blockFrames) (hl2 : ∀ c ∈ b2, c.length = sd.blockFrames)
    (h1 : decodeCore m sd b1 = .ok (s1, o1, e1))
    (h2 : decodeCore m sd b2 = .ok (s2, o2, e2)) :
    s1 = s2 ∧ e1 = e2 ∧ (e1 = false → o1 = o2) := by
  have hf := forall2_zero_take sd.blockFrames b1 b2 (by rw [hc1, hc2]) hl1 hl2
  exact decodeLoop_lockstep m _ sd b1 b2 0 s1 s2 o1 o2 e1 e2 hc1 hc2 hbuf hl1 hl2 hf h1 h2

/-- Witness for C2 (amended): two decode-loop runs from the state after
seeking m8 to frame 1, with different prior block contents, give the same
state and, having not reached end of file, identical output blocks. -/
theorem decode_block_fill_amended_witness :
    stOf3 (decodeCore m8 s1 [[9, 9, 9, 9]]) = stOf3 (decodeCore m8 s1 [[3, 3, 3, 3]]) ∧
    (eofOf3 (decodeCore m8 s1 [[9, 9, 9, 9]]) = false →
      outOf3 (decodeCore m8 s1 [[9, 9, 9, 9]]) = outOf3 (decodeCore m8 s1 [[3, 3, 3, 3]])) := by
  have h := decode_block_fill_amended m8 s1 [[9, 9, 9, 9]] [[3, 3, 3, 3]]
    (stOf3 (decodeCore m8 s1 [[9, 9, 9, 9]])) (stOf3 (decodeCore m8 s1 [[3, 3, 3, 3]]))
    (outOf3 (decodeCore m8 s1 [[9, 9, 9, 9]])) (outOf3 (decodeCore m8 s1 [[3, 3, 3, 3]]))
    (eofOf3 (decodeCore m8 s1 [[9, 9, 9, 9]])) (eofOf3 (decodeCore m8 s1 [[3, 3, 3, 3]]))
    (by decide) (by decide) (by decide) (by decide) (by decide) (by decide) (by decide)
  exact ⟨h.1, fun he => h.2.2 he⟩

/-- C2 (counterexample): with block_frames 6 on the 8-frame file m8,
after seeking to frame 4 the decode returns Ok but only writes the four
remaining frames; entries 4 and 5 of the block keep whatever they held
before the call (9 or 3 here), so they are neither decoded data nor
silence written by that call. -/
theorem decode_block_fill_counterexample :
    isOkD rC2a = true ∧ isOkD rC2b = true ∧
    outOf rC2a = [[14, 15, 16, 17, 9, 9]] ∧ outOf rC2b = [[14, 15, 16, 17, 3, 3]] ∧
    ((outOf rC2a).getD 0 []).getD 4 0 = 9 ∧
    ((outOf rC2a).getD 0 []).getD 4 0 ≠ 0 ∧
    outOf rC2a ≠ outOf rC2b := by decide

/-- C4 (counterexample): the same end-of-file decode returns Ok from
playhead 4 with block_frames 6 but moves the playhead to 8 (num_frames),
not to 4 + 6. -/
theorem playhead_advance_counterexample :
    sC2.playheadFrame = 4 ∧ sC2.numFrames = 8 ∧ sC2.blockFrames = 6 ∧
    isOkD rC2a = true ∧ (stOf rC2a).playheadFrame = 8 ∧
    (stOf rC2a).playheadFrame ≠ sC2.playheadFrame + sC2.blockFrames := by decide

/-- Witness for C4 (amended): the decode after seeking m8 to frame 1
starts below num_frames, returns Ok, and its playhead lands on one of the
two allowed values. -/
theorem playhead_advance_amended_witness :
    (stOf r1).playheadFrame = s1.playheadFrame + s1.blockFrames ∨
    (stOf r1).playheadFrame = s1.numFrames :=
  playhead_advance_amended m8 s1 [[9, 9, 9, 9]] (stOf r1) (outOf r1) (by decide) (by decide)

/-- Witness for C5: a clean two-frame packet against a pending delta of
five reduces the delta to three without touching the buffer, and in the
open loop a delta of one against a two-frame packet breaks exposing the
packet from offset one. -/
theorem seek_delta_state_machine_witness :
    refill m8 wX [⟨2, PKind.good⟩] 0 = .ok { wX with rest := [], pos := 2, seekDelta := 3 } ∧
    newAbsorb m8 1 [⟨2, PKind.good⟩] 0 = .ok (2, [], 2, 1) :=
  ⟨(seek_delta_state_machine m8 wX 2 [] 0).1 (by decide),
   (seek_delta_state_machine m8 wX 2 [] 0).2.2.2 1 (by decide)⟩

/-- Witness for C6: on media mE whose second packet is a fatal codec
error, decode fails with that error, and the theorem confirms it is one
of the non-decode error kinds. -/
theorem decode_error_nonfatal_witness :
    SymphoniaDecoder.decode mE sdE [[9, 9, 9, 9]] = .fatal SErr.codecOther ∧
    (SErr.codecOther = SErr.codecOther ∨ SErr.codecOther = SErr.ioOther) :=
  ⟨by decide, (decode_error_nonfatal mE sdE [[9, 9, 9, 9]] 0 4 0 0 0 []
      (fun f e0 h => by simp [mE] at h)).1 SErr.codecOther (by decide)⟩

/-- Witness for C9: seeking m8 (8 frames) to frame 9 clamps the playhead
to 8 and returns Ok, and the next decode zero-fills the block. -/
theorem seek_out_of_range_clamps_witness :
    SymphoniaDecoder.seek m8 s0 9 = ({ s0 with playheadFrame := 8 }, Except.ok ()) ∧
    SymphoniaDecoder.decode m8 (SymphoniaDecoder.seek m8 s0 9).1 [[1, 2]] =
      .ok ((SymphoniaDecoder.seek m8 s0 9).1, [[0, 0]]) := by
  have h := seek_out_of_range_clamps m8 s0 9 [[1, 2]]
  exact ⟨h.1 (by decide), h.2.2 (by decide)⟩

/-- C1: seek followed by decode does not emit data starting at the
requested frame when the seek delta spans several packets.  On m8 the
seek to frame 5 lands at frame 0 (delta 5); the skip loop decrements the
delta after the first packet but then the block copy resumes from the
stale decode buffer, so the first exposed sample is the value of frame 4
left over in the buffer from the previous decode, not frame 5.  The decode-loop comments in the
source state the intent to continue until the seek point, so this is a
slip of the loop structure, not of the specification. -/
theorem seek_exact_start_violated :
    isOkE (SymphoniaDecoder.seek m8 (stOf r1) 5).2 = true ∧
    isOkD r2 = true ∧
    outOf r2 = [[14, 15, 15, 16]] ∧
    m8.sample 0 5 = 15 ∧
    ((outOf r2).getD 0 []).getD 0 0 ≠ m8.sample 0 5 := by decide

/-- C3: the playhead exceeds num_frames on a reachable run.  After the
multi-packet-delta seek to frame 5 and one decode, the playhead is 9 on
the 8-frame file; the next decode does return Ok and zero-fill, but the
playhead stays at 9, not clamped at num_frames. -/
theorem playhead_clamp_violated :
    (stOf r2).playheadFrame = 9 ∧ (stOf r2).numFrames = 8 ∧
    SymphoniaDecoder.decode m8 (stOf r2) [[9, 9, 9, 9]] = .ok (stOf r2, [[0, 0, 0, 0]]) ∧
    (stOf r2).playheadFrame ≠ (stOf r2).numFrames := by decide

/-- C7: the first decode after open cannot return the first frames of the
file: new discards the samples of the first decoded packet
(make_equivalent allocates an empty buffer and nothing is converted into
it) while recording its frame count, so the first copy slices an empty
plane and panics instead of producing frames [0, block_frames) as the
in-repo test decode_first_frame requires. -/
theorem first_decode_after_open_broken :
    isOkN (SymphoniaDecoder.new mW 0 3) = true ∧
    SymphoniaDecoder.decode mW sdW [[9, 9, 9]] = .panicked := by decide

/-- C8: repeated seeks to the same frame are not idempotent.  Both seeks
to frame 5 on m8 succeed and both decodes return Ok, yet the two decoded
blocks differ, because the multi-packet-delta skip loop copies whatever
the decode buffer held before each seek. -/
theorem seek_idempotence_violated :
    isOkE (SymphoniaDecoder.seek m8 (stOf r1) 5).2 = true ∧
    isOkE (SymphoniaDecoder.seek m8 (stOf r2) 5).2 = true ∧
    isOkD r2 = true ∧ isOkD r3 = true ∧
    outOf r2 = [[14, 15, 15, 16]] ∧ outOf r3 = [[16, 17, 15, 16]] ∧
    outOf r2 ≠ outOf r3 := by decide

/-- C10: a DecodeError while new is absorbing the initial seek delta
resets the remaining delta to zero (first conjunct), unlike the refill
loop of decode, which skips the packet with the delta unchanged (second
conjunct); consequently the exposure position after new can lie before
the requested start frame: on mC10, opened at frame 6, the buffer window
starts at frame 8 - 4 + 0 = 4 < 6. -/
theorem new_delta_reset_on_decode_error :
    (∀ (m : Media) (d k : Nat) (r : List Packet) (pos : Nat),
      newAbsorb m d (⟨k, PKind.badDecode⟩ :: r) pos = newAbsorb m 0 r (pos + k)) ∧
    (∀ (m : Media) (sd : SDecoder) (k : Nat) (r : List Packet) (pos : Nat),
      refill m sd (⟨k, PKind.badDecode⟩ :: r) pos = refill m sd r (pos + k)) ∧
    isOkN (SymphoniaDecoder.new mC10 6 2) = true ∧
    c10st.decodeBufferLen = 4 ∧ c10st.pos = 8 ∧ c10st.currDecodeBufferFrame = 0 ∧
    c10st.pos - c10st.decodeBufferLen + c10st.currDecodeBufferFrame < 6 := by
  refine ⟨fun m d k r pos => by simp [newAbsorb], fun m sd k r pos => by simp [refill],
    by decide, by decide, by decide, by decide, by decide⟩
